import Mathlib

/-!
Verification development for the PySpecSDR signal-processing core.

Shallow embedding of the functions in src/signal_processing.py and
src/decoders.py that the specification's claims are about, together with
theorems settling those claims.

Conventions:
- Python lists of bits (ints 0/1) are embedded as List Nat.
- Python float arithmetic is embedded as exact real (or rational, where the
  code only compares against decimal thresholds) arithmetic; Lean's
  total-division convention x / 0 = 0 is noted wherever the Python code
  would instead produce inf/NaN, and no claim about NaN-freedom is proved
  from that convention.
- scipy filter-design routines (butter, firwin) produce opaque numeric
  coefficient arrays; filters are therefore embedded as functions that are
  generic in those coefficients (the filter recursion itself is embedded
  exactly), and theorems quantify over the coefficients.
- Python while loops whose index strictly increases are embedded with an
  explicit fuel argument equal to the loop bound, which dominates the
  number of iterations; this keeps every definition kernel-computable.
-/

set_option maxRecDepth 8000

namespace PySpecSDR

/-! ### Signal classifier (src/signal_processing.py, classify_signal)

The classification logic of classify_signal, lines 298-314: an if/elif
chain on the three estimated features.  The feature estimators
(welch PSD, estimate_bandwidth, estimate_modulation_index, spectral
flatness) are scipy floating-point numerics; the claims are about the
threshold logic, so the embedding takes the three features as inputs,
as exact rationals. -/

def classify_signal (signal_bw modulation_index spectral_flatness : ℚ) : String :=
  if signal_bw > 150000 then
    (if modulation_index > 8/10 then "FM_BROADCAST" else "UNKNOWN")
  else if 8000 ≤ signal_bw ∧ signal_bw ≤ 16000 then
    (if modulation_index < 3/10 then "NARROW_FM" else "UNKNOWN")
  else if 8000 ≤ signal_bw ∧ signal_bw ≤ 10000 then
    (if modulation_index < 2/10 ∧ spectral_flatness < 3/10 then "AM_BROADCAST" else "UNKNOWN")
  else if 2000 ≤ signal_bw ∧ signal_bw ≤ 3000 then
    (if spectral_flatness < 2/10 then "SSB" else "UNKNOWN")
  else if spectral_flatness > 7/10 then "DIGITAL"
  else "UNKNOWN"

/-! ### AX.25 / APRS decoder (src/decoders.py) -/

/-- The HDLC flag pattern 01111110 (decoders.py line 13). -/
def flagPat : List Nat := [0, 1, 1, 1, 1, 1, 1, 0]

/-- Start-flag search (decoders.py lines 16-20): first index i with
bit_stream[i:i+8] == flag; a slice shorter than 8 can never equal the
8-element flag, which subsumes the loop bound range(len - 7). -/
def findFlagIdx : List Nat → Option Nat
  | [] => none
  | b :: rest =>
    if (b :: rest).take 8 = flagPat then some 0
    else (findFlagIdx rest).map (· + 1)

/-- One pass of the IN_FRAME while loop (decoders.py lines 26-50), driven by
the suffix of the bit stream that starts at the current index i:
i < len - 7 iff 8 ≤ rem.length, bit_stream[i] and bit_stream[i+1] are
rem.getD 0 / rem.getD 1, and i += 1 / i += 2 drop 1 / 2 elements.
The check i + 1 < len in the destuffing condition is kept verbatim as
1 < rem.length.  fuel bounds the number of iterations; the wrapper
ax25Deframe passes rem.length, which dominates it since every iteration
consumes at least one element of rem. -/
def ax25LoopF : Nat → List Nat → Nat → List Nat → List Nat
  | 0, _, _, acc => acc
  | fuel + 1, rem, ones, acc =>
    if 8 ≤ rem.length then
      let bit := rem.getD 0 0
      let acc2 := acc ++ [bit]
      let ones2 := if bit = 1 then ones + 1 else 0
      if ones2 = 5 ∧ 1 < rem.length ∧ rem.getD 1 0 = 0 then
        ax25LoopF fuel (rem.drop 2) 0 acc2
      else if acc2.drop (acc2.length - 8) = flagPat then
        acc2.take (acc2.length - 8)
      else
        ax25LoopF fuel (rem.drop 1) ones2 acc2
    else acc

/-- The destuffing loop started at the bit after the opening flag, with
ones_count = 0 and an empty frame-bit buffer (decoders.py lines 26-28). -/
def ax25Deframe (rem : List Nat) : List Nat :=
  ax25LoopF rem.length rem 0 []

/-- LSB-first packing of a bit with weight 2^j (decoders.py lines 56-58:
byte |= frame_bits[i+j] << j). -/
def byteOfBits (bits : List Nat) : Nat :=
  bits.foldr (fun b acc => b + 2 * acc) 0

/-- Byte packing (decoders.py lines 53-59): groups of 8 destuffed bits,
LSB-first, a trailing partial group is dropped (the i + 8 <= len guard). -/
def bitsToBytes : List Nat → List Nat
  | b0 :: b1 :: b2 :: b3 :: b4 :: b5 :: b6 :: b7 :: rest =>
    byteOfBits [b0, b1, b2, b3, b4, b5, b6, b7] :: bitsToBytes rest
  | _ => []

/-- The frame-byte list decode_ax25_frame builds before handing off to
decode_aprs_payload: none when no start flag is found (lines 22-23),
otherwise the byte-packed output of the destuffing loop run on the
bits after the opening flag. -/
def ax25RawBytes (bit_stream : List Nat) : Option (List Nat) :=
  (findFlagIdx bit_stream).map (fun i => bitsToBytes (ax25Deframe (bit_stream.drop (i + 8))))

/-- Python str.strip() whitespace test, restricted to the code points
chr of a byte can produce (Python treats 0x09-0x0D, 0x1C-0x1F, 0x20,
0x85 and 0xA0 as whitespace). -/
def pyIsSpace (c : Char) : Bool :=
  (9 ≤ c.toNat && c.toNat ≤ 13) || (28 ≤ c.toNat && c.toNat ≤ 31) ||
    c.toNat = 32 || c.toNat = 133 || c.toNat = 160

/-- Python str.strip(): remove leading and trailing whitespace. -/
def pyStrip (l : List Char) : List Char :=
  ((l.dropWhile pyIsSpace).reverse.dropWhile pyIsSpace).reverse

/-- Address character: chr((b >> 1) & 0x7F) (decoders.py lines 76-77). -/
def addrChar (b : Nat) : Char := Char.ofNat (b / 2 % 128)

/-- decode_aprs_payload (decoders.py lines 67-91): reject frames under 14
bytes; addresses from bytes[0:6] and bytes[7:13] via (b>>1)&0x7F with
strip(); info field from bytes[15:] when len > 15; formatted as the
f-string source>dest:info.  All operations are total, so the
try/except that returns None never fires. -/
def decode_aprs_payload (frame_bytes : List Nat) : Option String :=
  if frame_bytes.length < 14 then none
  else
    let dest := pyStrip ((frame_bytes.take 6).map addrChar)
    let source := pyStrip (((frame_bytes.drop 7).take 6).map addrChar)
    let info := if 15 < frame_bytes.length then (frame_bytes.drop 15).map Char.ofNat else []
    some (String.mk (source ++ ['>'] ++ dest ++ [':'] ++ info))

/-- decode_ax25_frame (decoders.py lines 6-64): find the opening flag, run
the destuffing loop, pack bytes, parse the payload.  None when no start
flag is found or the payload parse rejects the frame. -/
def decode_ax25_frame (bit_stream : List Nat) : Option String :=
  (ax25RawBytes bit_stream).bind decode_aprs_payload

/-! ### Encoder side for the round-trip claim (C2).

Modelled from the spec: the hand-built test stream of §8.6 is
flag + bit-stuffed frame bytes + flag, where the frame bytes are expanded
LSB-first and a 0 is inserted after each run of five consecutive 1s. -/

/-- Modelled from the spec: LSB-first bit expansion of one byte. -/
def byteBits (b : Nat) : List Nat :=
  [b % 2, b / 2 % 2, b / 4 % 2, b / 8 % 2, b / 16 % 2, b / 32 % 2, b / 64 % 2, b / 128 % 2]

/-- Modelled from the spec: LSB-first bit expansion of a frame. -/
def frameBits (frame : List Nat) : List Nat := frame.flatMap byteBits

/-- Modelled from the spec: HDLC bit stuffing - insert a 0 after each run
of five consecutive 1s; ones counts the current run. -/
def stuffBits : List Nat → Nat → List Nat
  | [], _ => []
  | b :: rest, ones =>
    if b = 1 then
      if ones = 4 then 1 :: 0 :: stuffBits rest 0
      else 1 :: stuffBits rest (ones + 1)
    else b :: stuffBits rest 0

/-- Modelled from the spec: the hand-built bit stream
flag + stuffed frame bits + flag. -/
def mkStream (frame : List Nat) : List Nat :=
  flagPat ++ stuffBits (frameBits frame) 0 ++ flagPat

/-- No occurrence of the flag pattern as a contiguous subsequence:
every 8-bit window differs from it. -/
def flagFree (l : List Nat) : Prop :=
  ∀ n < l.length, (l.drop n).take 8 ≠ flagPat

instance (l : List Nat) : Decidable (flagFree l) :=
  inferInstanceAs (Decidable (∀ n < l.length, (l.drop n).take 8 ≠ flagPat))

/-! ### Helper lemmas for the deframer -/

/-- One-step unfolding of the destuffing loop with positive fuel. -/
theorem ax25LoopF_succ (fuel : Nat) (rem : List Nat) (ones : Nat) (acc : List Nat) :
    ax25LoopF (fuel + 1) rem ones acc =
      if 8 ≤ rem.length then
        (if (if rem.getD 0 0 = 1 then ones + 1 else 0) = 5 ∧ 1 < rem.length ∧ rem.getD 1 0 = 0 then
          ax25LoopF fuel (rem.drop 2) 0 (acc ++ [rem.getD 0 0])
        else if (acc ++ [rem.getD 0 0]).drop ((acc ++ [rem.getD 0 0]).length - 8) = flagPat then
          (acc ++ [rem.getD 0 0]).take ((acc ++ [rem.getD 0 0]).length - 8)
        else
          ax25LoopF fuel (rem.drop 1) (if rem.getD 0 0 = 1 then ones + 1 else 0)
            (acc ++ [rem.getD 0 0]))
      else acc := rfl

/-- The end-of-frame test frame_bits[-8:] == flag holds exactly when the
accumulated bits end with the flag pattern. -/
theorem dropLen8_eq_flag_iff (l : List Nat) :
    l.drop (l.length - 8) = flagPat ↔ ∃ s, s ++ flagPat = l := by
  constructor
  · intro h
    refine ⟨l.take (l.length - 8), ?_⟩
    conv_rhs => rw [← List.take_append_drop (l.length - 8) l]
    rw [h]
  · rintro ⟨s, rfl⟩
    have h8 : (s ++ flagPat).length - 8 = s.length := by
      simp [flagPat]
    rw [h8, List.drop_left]

/-- In a flag-free bit list, no initial segment ends with the flag pattern. -/
theorem flagFree_no_suffix {l : List Nat} (h : flagFree l) :
    ∀ p q : List Nat, p ++ q = l → ¬ ∃ s, s ++ flagPat = p := by
  rintro p q rfl ⟨s, rfl⟩
  have hn : s.length < ((s ++ flagPat) ++ q).length := by simp [flagPat]
  exact h s.length hn (by
    rw [List.append_assoc, List.drop_left, show (8 : ℕ) = flagPat.length from rfl,
      List.take_left])

theorem le_length_stuffBits (fb : List Nat) : ∀ c, fb.length ≤ (stuffBits fb c).length := by
  induction fb with
  | nil => intro c; simp [stuffBits]
  | cons b rest ih =>
    intro c
    by_cases hb : b = 1
    · by_cases hc : c = 4
      · have := ih 0
        simp [stuffBits, hb, hc]
        omega
      · have := ih (c + 1)
        simp [stuffBits, hb, hc]
        omega
    · have := ih 0
      simp [stuffBits, hb]
      omega

/-- Key invariant of the destuffing loop: run on stuffed frame bits followed
by the closing flag, with matching run counters on both sides, the loop
appends exactly the original frame bits plus the first (zero) bit of the
closing flag, provided no initial segment of the destuffed output ever ends
with the flag pattern (the flagFree side condition of the round trip). -/
theorem ax25LoopF_stuffed (fb : List Nat) :
    ∀ (c : Nat) (acc : List Nat) (fuel : Nat),
      (∀ b ∈ fb, b = 0 ∨ b = 1) → c ≤ 4 → fb.length + 1 ≤ fuel →
      (∀ p q : List Nat, p ++ q = fb ++ [0] → ¬ ∃ s, s ++ flagPat = acc ++ p) →
      ax25LoopF fuel (stuffBits fb c ++ flagPat) c acc = acc ++ fb ++ [0] := by
  induction fb with
  | nil =>
    intro c acc fuel hb hc hf hNF
    obtain ⟨f, rfl⟩ : ∃ f, fuel = f + 1 := ⟨fuel - 1, by omega⟩
    have hflag : ¬ (acc ++ [0]).drop ((acc ++ [0]).length - 8) = flagPat := by
      rw [dropLen8_eq_flag_iff]
      exact hNF [0] [] (by simp)
    rw [show stuffBits [] c ++ flagPat = flagPat from rfl, ax25LoopF_succ]
    rw [if_pos (by norm_num [flagPat])]
    rw [show flagPat.getD 0 0 = 0 from rfl]
    rw [if_neg (by norm_num), if_neg hflag]
    rw [show flagPat.drop 1 = [1, 1, 1, 1, 1, 1, 0] from rfl]
    cases f with
    | zero => simp [ax25LoopF]
    | succ f => rw [ax25LoopF_succ, if_neg (by norm_num)]; simp
  | cons b fb ih =>
    intro c acc fuel hb hc hf hNF
    obtain ⟨f, rfl⟩ : ∃ f, fuel = f + 1 := ⟨fuel - 1, by omega⟩
    have hbfb : ∀ x ∈ fb, x = 0 ∨ x = 1 := fun x hx => hb x (by simp [hx])
    have hfc : fb.length + 1 ≤ f := by
      have : (b :: fb).length = fb.length + 1 := rfl
      omega
    have hlen : 8 ≤ (stuffBits fb 0 ++ flagPat).length := by simp [flagPat]
    have hNF2 : ∀ p q : List Nat, p ++ q = fb ++ [0] →
        ¬ ∃ s, s ++ flagPat = (acc ++ [b]) ++ p := by
      intro p q hpq
      have := hNF (b :: p) q (by simp [hpq])
      simpa [List.append_assoc] using this
    have hflag : ¬ (acc ++ [b]).drop ((acc ++ [b]).length - 8) = flagPat := by
      rw [dropLen8_eq_flag_iff]
      exact hNF [b] (fb ++ [0]) (by simp)
    rcases hb b (by simp) with hb0 | hb1
    · subst hb0
      rw [show stuffBits (0 :: fb) c = 0 :: stuffBits fb 0 by simp [stuffBits],
        List.cons_append, ax25LoopF_succ]
      rw [if_pos (by simpa using Nat.le_succ_of_le hlen)]
      rw [show (0 :: (stuffBits fb 0 ++ flagPat)).getD 0 0 = 0 from rfl]
      rw [if_neg (by norm_num), if_neg hflag]
      rw [show (0 :: (stuffBits fb 0 ++ flagPat)).drop 1 = stuffBits fb 0 ++ flagPat from rfl]
      rw [show (if (0 : ℕ) = 1 then c + 1 else 0) = 0 from rfl]
      rw [ih 0 (acc ++ [0]) f hbfb (by norm_num) hfc hNF2]
      simp
    · subst hb1
      by_cases hc4 : c = 4
      · subst hc4
        rw [show stuffBits (1 :: fb) 4 = 1 :: 0 :: stuffBits fb 0 by simp [stuffBits],
          List.cons_append, List.cons_append, ax25LoopF_succ]
        rw [if_pos (by simp [flagPat])]
        rw [show (1 :: 0 :: (stuffBits fb 0 ++ flagPat)).getD 0 0 = 1 from rfl]
        rw [show (1 :: 0 :: (stuffBits fb 0 ++ flagPat)).getD 1 0 = 0 from rfl]
        rw [show (if (1 : ℕ) = 1 then 4 + 1 else 0) = 5 from rfl]
        rw [if_pos (by simp [flagPat])]
        rw [show (1 :: 0 :: (stuffBits fb 0 ++ flagPat)).drop 2 = stuffBits fb 0 ++ flagPat from
          rfl]
        rw [ih 0 (acc ++ [1]) f hbfb (by norm_num) hfc hNF2]
        simp
      · rw [show stuffBits (1 :: fb) c = 1 :: stuffBits fb (c + 1) by simp [stuffBits, hc4],
          List.cons_append, ax25LoopF_succ]
        have hlen2 : 8 ≤ (stuffBits fb (c + 1) ++ flagPat).length := by simp [flagPat]
        rw [if_pos (by simpa using Nat.le_succ_of_le hlen2)]
        rw [show (1 :: (stuffBits fb (c + 1) ++ flagPat)).getD 0 0 = 1 from rfl]
        rw [show (if (1 : ℕ) = 1 then c + 1 else 0) = c + 1 from rfl]
        rw [if_neg (by rintro ⟨h5, -⟩; exact hc4 (by omega))]
        rw [if_neg hflag]
        rw [show (1 :: (stuffBits fb (c + 1) ++ flagPat)).drop 1 =
          stuffBits fb (c + 1) ++ flagPat from rfl]
        rw [ih (c + 1) (acc ++ [1]) f hbfb (by omega) hfc hNF2]
        simp

theorem findFlagIdx_flag (rest : List Nat) : findFlagIdx (flagPat ++ rest) = some 0 := by
  rw [show flagPat ++ rest = 0 :: ([1, 1, 1, 1, 1, 1, 0] ++ rest) from rfl, findFlagIdx]
  rw [if_pos (by rfl)]

theorem byteOfBits_byteBits (b : Nat) (hb : b < 256) : byteOfBits (byteBits b) = b := by
  show b % 2 + 2 * (b / 2 % 2 + 2 * (b / 4 % 2 + 2 * (b / 8 % 2 + 2 * (b / 16 % 2 +
    2 * (b / 32 % 2 + 2 * (b / 64 % 2 + 2 * (b / 128 % 2 + 2 * 0))))))) = b
  omega

theorem bitsToBytes_frameBits (frame : List Nat) (h : ∀ b ∈ frame, b < 256) :
    bitsToBytes (frameBits frame ++ [0]) = frame := by
  induction frame with
  | nil => rfl
  | cons b fr ih =>
    have hb := h b (by simp)
    have hfr : ∀ x ∈ fr, x < 256 := fun x hx => h x (by simp [hx])
    show bitsToBytes ((byteBits b ++ frameBits fr) ++ [0]) = b :: fr
    rw [List.append_assoc]
    show byteOfBits [b % 2, b / 2 % 2, b / 4 % 2, b / 8 % 2, b / 16 % 2, b / 32 % 2,
      b / 64 % 2, b / 128 % 2] :: bitsToBytes (frameBits fr ++ [0]) = b :: fr
    rw [show [b % 2, b / 2 % 2, b / 4 % 2, b / 8 % 2, b / 16 % 2, b / 32 % 2,
      b / 64 % 2, b / 128 % 2] = byteBits b from rfl, byteOfBits_byteBits b hb, ih hfr]

theorem frameBits_bits (frame : List Nat) : ∀ x ∈ frameBits frame, x = 0 ∨ x = 1 := by
  intro x hx
  rcases List.mem_flatMap.mp hx with ⟨b, _, hxb⟩
  have h2 : ∀ y ∈ byteBits b, y = 0 ∨ y = 1 := by
    intro y hy
    simp only [byteBits, List.mem_cons, List.not_mem_nil, or_false] at hy
    rcases hy with rfl | rfl | rfl | rfl | rfl | rfl | rfl | rfl <;> omega
  exact h2 x hxb

/-! ### Claims C1, C2, C3 -/

/-- Claim C1 counterexample: a block whose estimated bandwidth is 9 kHz
(inside 8-10 kHz), modulation index 0.1 (< 0.2) and flatness 0.1 (< 0.3) is
classified NARROW_FM, not AM_BROADCAST as the claim states: the 8-16 kHz
elif branch is tested first and any index < 0.2 is also < 0.3. -/
theorem c1_counterexample :
    (8000 ≤ (9000 : ℚ) ∧ (9000 : ℚ) ≤ 10000) ∧
    ((1 : ℚ)/10 < 2/10 ∧ (1 : ℚ)/10 < 3/10) ∧
    classify_signal 9000 (1/10) (1/10) = "NARROW_FM" ∧
    classify_signal 9000 (1/10) (1/10) ≠ "AM_BROADCAST" := by
  have hval : classify_signal 9000 (1/10) (1/10) = "NARROW_FM" := by
    unfold classify_signal
    rw [if_neg (by norm_num), if_pos (by norm_num : (8000 : ℚ) ≤ 9000 ∧ (9000 : ℚ) ≤ 16000),
      if_pos (by norm_num)]
  exact ⟨⟨by norm_num, by norm_num⟩, ⟨by norm_num, by norm_num⟩, hval,
    by rw [hval]; decide⟩

/-- Claim C1 (amended): classify_signal evaluates its documented thresholds
as an ordered if/elif chain.  Bandwidth > 150 kHz gives FM_BROADCAST when
index > 0.8 and otherwise UNKNOWN; bandwidth in [8,16] kHz gives NARROW_FM
when index < 0.3 and otherwise UNKNOWN (this bracket shadows the 8-10 kHz
test, so AM_BROADCAST is never returned for any input); bandwidth in
[2.4,3] kHz gives SSB when flatness < 0.2 and otherwise UNKNOWN; DIGITAL is
returned only when the bandwidth matches none of the brackets (below 2 kHz,
strictly between 3 and 8 kHz, or in (16,150] kHz) and flatness > 0.7;
everything else is UNKNOWN. -/
theorem c1_classify_brackets (bw idx flat : ℚ) :
    (150000 < bw →
      classify_signal bw idx flat = if idx > 8/10 then "FM_BROADCAST" else "UNKNOWN") ∧
    (8000 ≤ bw → bw ≤ 16000 →
      classify_signal bw idx flat = if idx < 3/10 then "NARROW_FM" else "UNKNOWN") ∧
    (classify_signal bw idx flat ≠ "AM_BROADCAST") ∧
    (2400 ≤ bw → bw ≤ 3000 →
      classify_signal bw idx flat = if flat < 2/10 then "SSB" else "UNKNOWN") ∧
    ((bw < 2000 ∨ (3000 < bw ∧ bw < 8000) ∨ (16000 < bw ∧ bw ≤ 150000)) →
      classify_signal bw idx flat = if flat > 7/10 then "DIGITAL" else "UNKNOWN") := by
  unfold classify_signal
  refine ⟨?_, ?_, ?_, ?_, ?_⟩
  · intro h
    rw [if_pos h]
  · intro h1 h2
    rw [if_neg (by simp only [not_lt]; linarith), if_pos ⟨h1, h2⟩]
  · by_cases hA : bw > 150000
    · rw [if_pos hA]; split_ifs <;> decide
    rw [if_neg hA]
    by_cases hB : 8000 ≤ bw ∧ bw ≤ 16000
    · rw [if_pos hB]; split_ifs <;> decide
    rw [if_neg hB]
    have hC : ¬(8000 ≤ bw ∧ bw ≤ 10000) := fun hc => hB ⟨hc.1, by linarith [hc.2]⟩
    rw [if_neg hC]
    split_ifs <;> decide
  · intro h1 h2
    rw [if_neg (by simp only [not_lt]; linarith),
      if_neg (by rintro ⟨h, -⟩; linarith),
      if_neg (by rintro ⟨h, -⟩; linarith),
      if_pos ⟨by linarith, h2⟩]
  · intro h
    have hA : ¬ bw > 150000 := by rcases h with h | ⟨h1, h2⟩ | ⟨h1, h2⟩ <;> simp <;> linarith
    have hB : ¬(8000 ≤ bw ∧ bw ≤ 16000) := by
      rintro ⟨g1, g2⟩; rcases h with h | ⟨h1, h2⟩ | ⟨h1, h2⟩ <;> linarith
    have hC : ¬(8000 ≤ bw ∧ bw ≤ 10000) := by
      rintro ⟨g1, g2⟩; rcases h with h | ⟨h1, h2⟩ | ⟨h1, h2⟩ <;> linarith
    have hD : ¬(2000 ≤ bw ∧ bw ≤ 3000) := by
      rintro ⟨g1, g2⟩; rcases h with h | ⟨h1, h2⟩ | ⟨h1, h2⟩ <;> linarith
    rw [if_neg hA, if_neg hB, if_neg hC, if_neg hD]

/-- Claim C1 witness: a block with bandwidth 200 kHz and index 0.9
classifies as FM_BROADCAST, by the bracket theorem. -/
theorem c1_witness :
    (150000 : ℚ) < 200000 ∧ classify_signal 200000 (9/10) (1/2) = "FM_BROADCAST" := by
  refine ⟨by norm_num, ?_⟩
  have h := (c1_classify_brackets 200000 (9/10) (1/2)).1 (by norm_num)
  rw [if_pos (by norm_num : (9 : ℚ)/10 > 8/10)] at h
  exact h

/-- Claim C2 (amended): the flag + stuffed-bits + flag stream round-trips
through decode_ax25_frame back to the original frame bytes provided the
frame's LSB-first bit expansion, followed by the first (zero) bit of the
closing flag, nowhere contains the flag pattern 01111110 itself; the
decoded source/dest/info fields are then exactly those parsed from the
original frame bytes.  (Without that proviso the deframer truncates the
frame at the first destuffed occurrence of the flag pattern, see the
counterexample.) -/
theorem c2_ax25_roundtrip (frame : List Nat) (hbytes : ∀ b ∈ frame, b < 256)
    (hfree : flagFree (frameBits frame ++ [0])) :
    ax25RawBytes (mkStream frame) = some frame ∧
    decode_ax25_frame (mkStream frame) = decode_aprs_payload frame := by
  have hdrop : (mkStream frame).drop (0 + 8) = stuffBits (frameBits frame) 0 ++ flagPat := rfl
  have hfind : findFlagIdx (mkStream frame) = some 0 := by
    rw [show mkStream frame = flagPat ++ (stuffBits (frameBits frame) 0 ++ flagPat) by
      simp [mkStream, List.append_assoc]]
    exact findFlagIdx_flag _
  have hlen2 : (frameBits frame).length + 1 ≤
      (stuffBits (frameBits frame) 0 ++ flagPat).length := by
    have := le_length_stuffBits (frameBits frame) 0
    simp [flagPat]
    omega
  have hnf : ∀ p q : List Nat, p ++ q = frameBits frame ++ [0] →
      ¬ ∃ s, s ++ flagPat = [] ++ p := by
    intro p q hpq
    simpa using flagFree_no_suffix hfree p q hpq
  have hloop : ax25Deframe (stuffBits (frameBits frame) 0 ++ flagPat) =
      frameBits frame ++ [0] := by
    unfold ax25Deframe
    have := ax25LoopF_stuffed (frameBits frame) 0 []
      ((stuffBits (frameBits frame) 0 ++ flagPat).length)
      (frameBits_bits frame) (by norm_num) hlen2 hnf
    simpa using this
  have h1 : ax25RawBytes (mkStream frame) = some frame := by
    unfold ax25RawBytes
    rw [hfind]
    show some (bitsToBytes (ax25Deframe ((mkStream frame).drop (0 + 8)))) = some frame
    rw [hdrop, hloop, bitsToBytes_frameBits frame hbytes]
  refine ⟨h1, ?_⟩
  unfold decode_ax25_frame
  rw [h1]
  rfl

/-- An AX.25 frame NOCALL>APRS whose info field starts with byte 0x7E: its
LSB-first bit expansion contains the flag pattern after destuffing. -/
def exFrameBad : List Nat :=
  [130, 160, 164, 166, 64, 64, 96, 156, 158, 134, 130, 152, 152, 97, 240, 126, 65, 66]

/-- The same frame with the 0x7E byte removed from the info field. -/
def exFrameGood : List Nat :=
  [130, 160, 164, 166, 64, 64, 96, 156, 158, 134, 130, 152, 152, 97, 240, 65, 66]

/-- Claim C2 counterexample: the frame whose info field is "~AB" (0x7E 0x41
0x42) does not round-trip: the deframer truncates at the destuffed flag
pattern inside the info field, and the decoded packet loses the whole info
field, so the fields observed differ from those of the original frame. -/
theorem c2_counterexample :
    decode_ax25_frame (mkStream exFrameBad) = some "NOCALL>APRS:" ∧
    decode_aprs_payload exFrameBad = some "NOCALL>APRS:~AB" ∧
    decode_ax25_frame (mkStream exFrameBad) ≠ decode_aprs_payload exFrameBad := by decide

/-- Claim C2 witness: a concrete flag-pattern-free frame round-trips. -/
theorem c2_witness :
    (∀ b ∈ exFrameGood, b < 256) ∧ flagFree (frameBits exFrameGood ++ [0]) ∧
    ax25RawBytes (mkStream exFrameGood) = some exFrameGood ∧
    decode_ax25_frame (mkStream exFrameGood) = decode_aprs_payload exFrameGood := by
  have h1 : ∀ b ∈ exFrameGood, b < 256 := by decide
  have h2 : flagFree (frameBits exFrameGood ++ [0]) := by decide
  exact ⟨h1, h2, (c2_ax25_roundtrip exFrameGood h1 h2).1, (c2_ax25_roundtrip exFrameGood h1 h2).2⟩

/-- Claim C3 (amended): decode_ax25_frame returns None when no start flag is
found, and when the deframed content packs to fewer than 14 bytes; it is a
total function (the source wraps the body in try/except returning None, and
no operation here can raise).  When a start flag is present but no closing
flag follows, the loop simply consumes the stream to its end and still
returns a packet whenever at least 14 bytes pack - see the counterexample. -/
theorem c3_failure_paths (bs fb : List Nat) :
    (ax25RawBytes bs = none → decode_ax25_frame bs = none) ∧
    (ax25RawBytes bs = some fb → fb.length < 14 → decode_ax25_frame bs = none) := by
  constructor
  · intro h
    unfold decode_ax25_frame
    rw [h]
    rfl
  · intro h hlen
    unfold decode_ax25_frame
    rw [h]
    show decode_aprs_payload fb = none
    unfold decode_aprs_payload
    rw [if_pos hlen]

/-- A stream with an opening flag followed by 120 alternating bits: no
closing flag (nor any flag pattern) anywhere after the opening flag. -/
def exC3stream : List Nat := flagPat ++ (List.replicate 60 [1, 0]).flatten

/-- Claim C3 counterexample: on a stream with a start flag but no closing
flag whose content packs to 14 bytes, decode_ax25_frame returns a packet,
not None as the claim states. -/
theorem c3_counterexample :
    findFlagIdx exC3stream = some 0 ∧ flagFree (exC3stream.drop 8) ∧
    decode_ax25_frame exC3stream ≠ none := by decide

/-- Claim C3 witness: flag followed immediately by flag deframes to zero
bytes, fewer than 14, so decode_ax25_frame returns None. -/
theorem c3_witness :
    ax25RawBytes (flagPat ++ flagPat) = some [] ∧
    decode_ax25_frame (flagPat ++ flagPat) = none :=
  ⟨by decide, (c3_failure_paths (flagPat ++ flagPat) []).2 (by decide) (by decide)⟩

/-! ### IQ correction (src/signal_processing.py, iq_correction, lines 44-78)

Embedded over exact reals/complexes.  np.mean is sum/length, np.var of
complex data is the mean of |x - mean|^2, i.e. of Complex.normSq (x - mean).
Lean's total-division convention x / 0 = 0 is used where numpy would emit
inf/NaN; theorems about degenerate inputs only ever conclude that the output
differs from the input, which holds under both conventions. -/

noncomputable def rmean (l : List ℝ) : ℝ := l.sum / l.length

noncomputable def cmean (l : List ℂ) : ℂ := l.sum / (l.length : ℂ)

noncomputable def cvar (l : List ℂ) : ℝ :=
  (l.map (fun z => Complex.normSq (z - cmean l))).sum / l.length

/-- centered_samples = samples - np.mean(samples). -/
noncomputable def centeredSamples (samples : List ℂ) : List ℂ :=
  samples.map (fun z => z - cmean samples)

/-- input_power = np.var(centered_samples). -/
noncomputable def input_power (samples : List ℂ) : ℝ := cvar (centeredSamples samples)

/-- q_amplitude = np.sqrt(2 * np.mean(samples.imag ** 2)). -/
noncomputable def q_amplitude (samples : List ℂ) : ℝ :=
  Real.sqrt (2 * rmean (samples.map (fun z => z.im ^ 2)))

/-- normalized_samples = samples / q_amplitude. -/
noncomputable def normalized_samples (samples : List ℂ) : List ℂ :=
  samples.map (fun z => z / ((q_amplitude samples : ℝ) : ℂ))

noncomputable def i_samples (samples : List ℂ) : List ℝ :=
  (normalized_samples samples).map Complex.re

noncomputable def q_samples (samples : List ℂ) : List ℝ :=
  (normalized_samples samples).map Complex.im

/-- alpha_est = np.sqrt(2 * np.mean(i_samples ** 2)). -/
noncomputable def alpha_est (samples : List ℂ) : ℝ :=
  Real.sqrt (2 * rmean ((i_samples samples).map (fun x => x ^ 2)))

/-- sin_phi_est = (2 / alpha_est) * np.mean(i_samples * q_samples). -/
noncomputable def sin_phi_est (samples : List ℂ) : ℝ :=
  (2 / alpha_est samples) * rmean (List.zipWith (fun a b => a * b)
    (i_samples samples) (q_samples samples))

/-- cos_phi_est = np.sqrt(1 - sin_phi_est ** 2). -/
noncomputable def cos_phi_est (samples : List ℂ) : ℝ :=
  Real.sqrt (1 - sin_phi_est samples ^ 2)

/-- corrected_samples = (i_new + 1j * q_new) / cos_phi_est with
i_new = (1/alpha_est) * i_samples and
q_new = (-sin_phi_est/alpha_est) * i_samples + q_samples. -/
noncomputable def corrected_samples (samples : List ℂ) : List ℂ :=
  List.zipWith
    (fun i q =>
      (((1 / alpha_est samples * i : ℝ) : ℂ) +
        Complex.I * ((-sin_phi_est samples / alpha_est samples * i + q : ℝ) : ℂ)) /
        ((cos_phi_est samples : ℝ) : ℂ))
    (i_samples samples) (q_samples samples)

/-- iq_correction: the final rescale
corrected_samples * np.sqrt(input_power / np.var(corrected_samples)). -/
noncomputable def iq_correction (samples : List ℂ) : List ℂ :=
  (corrected_samples samples).map
    (fun z => z * ((Real.sqrt (input_power samples / cvar (corrected_samples samples)) : ℝ) : ℂ))

theorem cvar_nonneg (l : List ℂ) : 0 ≤ cvar l := by
  unfold cvar
  apply div_nonneg _ (Nat.cast_nonneg _)
  apply List.sum_nonneg
  intro x hx
  rcases List.mem_map.mp hx with ⟨z, -, rfl⟩
  exact Complex.normSq_nonneg _

theorem csum_map_mul (l : List ℂ) (c : ℂ) : (l.map (fun z => z * c)).sum = l.sum * c := by
  induction l with
  | nil => simp
  | cons x xs ih => simp [ih, add_mul]

theorem cmean_map_mul (l : List ℂ) (c : ℂ) : cmean (l.map (fun z => z * c)) = cmean l * c := by
  unfold cmean
  rw [csum_map_mul, List.length_map, mul_div_right_comm]

theorem rsum_map_mul (l : List ℂ) (g : ℂ → ℝ) (c : ℝ) :
    (l.map (fun z => g z * c)).sum = (l.map g).sum * c := by
  induction l with
  | nil => simp
  | cons x xs ih => simp [ih, add_mul]

theorem input_power_nonneg (samples : List ℂ) : 0 ≤ input_power samples :=
  cvar_nonneg _

theorem cvar_map_mul (l : List ℂ) (c : ℂ) :
    cvar (l.map (fun z => z * c)) = cvar l * Complex.normSq c := by
  unfold cvar
  rw [cmean_map_mul, List.length_map, List.map_map]
  have h1 : ((fun z => Complex.normSq (z - cmean l * c)) ∘ fun z => z * c) =
      fun z => Complex.normSq (z - cmean l) * Complex.normSq c := by
    funext z
    simp only [Function.comp_apply]
    rw [← sub_mul, Complex.normSq_mul]
  rw [h1, rsum_map_mul l (fun z => Complex.normSq (z - cmean l)) (Complex.normSq c),
    mul_div_right_comm]

/-- Claim C5: for non-degenerate input (nonzero q_amplitude and cos_phi, and
nonzero variance of the corrected signal so that the rescale divisor is
nonzero), the variance of iq_correction's output equals the variance of the
DC-removed input exactly (the final rescale step guarantees it). -/
theorem c5_power_preserved (samples : List ℂ)
    (hq : q_amplitude samples ≠ 0) (hcos : cos_phi_est samples ≠ 0)
    (hvar : cvar (corrected_samples samples) ≠ 0) :
    cvar (iq_correction samples) = cvar (centeredSamples samples) := by
  unfold iq_correction
  rw [cvar_map_mul]
  rw [Complex.normSq_ofReal]
  rw [Real.mul_self_sqrt
    (div_nonneg (input_power_nonneg samples) (cvar_nonneg _))]
  rw [mul_comm, div_mul_cancel₀ _ hvar]
  rfl

/-- Claim C5 witness: the block [1, i, -1, -i] is non-degenerate and its
corrected output has the variance of the DC-removed input. -/
theorem c5_witness :
    q_amplitude [(1 : ℂ), Complex.I, -1, -Complex.I] ≠ 0 ∧
    cos_phi_est [(1 : ℂ), Complex.I, -1, -Complex.I] ≠ 0 ∧
    cvar (corrected_samples [(1 : ℂ), Complex.I, -1, -Complex.I]) ≠ 0 ∧
    cvar (iq_correction [(1 : ℂ), Complex.I, -1, -Complex.I]) =
      cvar (centeredSamples [(1 : ℂ), Complex.I, -1, -Complex.I]) := by
  have hq : q_amplitude [(1 : ℂ), Complex.I, -1, -Complex.I] = 1 := by
    unfold q_amplitude rmean
    norm_num [Real.sqrt_eq_one]
  have hnorm : normalized_samples [(1 : ℂ), Complex.I, -1, -Complex.I] =
      [(1 : ℂ), Complex.I, -1, -Complex.I] := by
    unfold normalized_samples
    rw [hq]
    norm_num
  have hi : i_samples [(1 : ℂ), Complex.I, -1, -Complex.I] = [1, 0, -1, 0] := by
    unfold i_samples
    rw [hnorm]
    norm_num [Complex.I_re]
  have hqs : q_samples [(1 : ℂ), Complex.I, -1, -Complex.I] = [0, 1, 0, -1] := by
    unfold q_samples
    rw [hnorm]
    norm_num [Complex.I_im]
  have halpha : alpha_est [(1 : ℂ), Complex.I, -1, -Complex.I] = 1 := by
    unfold alpha_est rmean
    rw [hi]
    norm_num [Real.sqrt_eq_one]
  have hsin : sin_phi_est [(1 : ℂ), Complex.I, -1, -Complex.I] = 0 := by
    unfold sin_phi_est rmean
    rw [hi, hqs, halpha]
    norm_num
  have hcos : cos_phi_est [(1 : ℂ), Complex.I, -1, -Complex.I] = 1 := by
    unfold cos_phi_est
    rw [hsin]
    norm_num
  have hcorr : corrected_samples [(1 : ℂ), Complex.I, -1, -Complex.I] =
      [(1 : ℂ), Complex.I, -1, -Complex.I] := by
    unfold corrected_samples
    rw [hi, hqs, halpha, hsin, hcos]
    norm_num [Complex.ext_iff]
  have hvar : cvar (corrected_samples [(1 : ℂ), Complex.I, -1, -Complex.I]) = 1 := by
    rw [hcorr]
    unfold cvar cmean
    norm_num [Complex.normSq_apply, Complex.I_re, Complex.I_im]
  refine ⟨by rw [hq]; norm_num, by rw [hcos]; norm_num, by rw [hvar]; norm_num, ?_⟩
  exact c5_power_preserved _ (by rw [hq]; norm_num) (by rw [hcos]; norm_num)
    (by rw [hvar]; norm_num)

/-- Claim C6: the code does NOT fail soft on degenerate input: for the
all-real block [1, -1], q_amplitude is exactly 0 and iq_correction divides
by it (numpy emits inf/NaN there; in this exact-arithmetic embedding the
total-division convention propagates 0), and the output is not the
unchanged input that the claim requires. -/
theorem c6_degenerate_not_unchanged :
    q_amplitude [(1 : ℂ), -1] = 0 ∧
    iq_correction [(1 : ℂ), -1] ≠ [(1 : ℂ), -1] := by
  have hq : q_amplitude [(1 : ℂ), -1] = 0 := by
    unfold q_amplitude rmean
    norm_num
  have hnorm : normalized_samples [(1 : ℂ), -1] = [0, 0] := by
    unfold normalized_samples
    rw [hq]
    norm_num
  have hi : i_samples [(1 : ℂ), -1] = [0, 0] := by
    unfold i_samples
    rw [hnorm]
    norm_num
  have hqs : q_samples [(1 : ℂ), -1] = [0, 0] := by
    unfold q_samples
    rw [hnorm]
    norm_num
  have hcorr : corrected_samples [(1 : ℂ), -1] = [0, 0] := by
    unfold corrected_samples
    rw [hi, hqs]
    norm_num
  refine ⟨hq, ?_⟩
  unfold iq_correction
  rw [hcorr]
  intro h
  have h0 := congrArg (fun l => l.getD 0 0) h
  simp at h0

/-! ### AM demodulation and the demodulator dispatch
(src/signal_processing.py, demodulate_am lines 177-193,
demodulate_signal lines 218-234)

bandpass_filter applies scipy's sosfilt with a butter(10,...)-designed
cascade of second-order sections; the design routine's coefficients are
opaque floats, so the sections are a parameter, while the sosfilt
direct-form-II-transposed recursion itself is embedded exactly
(per section: y = b0*x + z1; z1' = b1*x - a1*y + z2; z2' = b2*x - a2*y,
zero initial conditions, matching scipy's zi=0 default). -/

structure Biquad where
  b0 : ℝ
  b1 : ℝ
  b2 : ℝ
  a1 : ℝ
  a2 : ℝ

noncomputable def biquadRun (c : Biquad) : List ℝ → ℝ → ℝ → List ℝ
  | [], _, _ => []
  | x :: xs, z1, z2 =>
    (c.b0 * x + z1) ::
      biquadRun c xs (c.b1 * x - c.a1 * (c.b0 * x + z1) + z2)
        (c.b2 * x - c.a2 * (c.b0 * x + z1))

noncomputable def sosfilt (sections : List Biquad) (x : List ℝ) : List ℝ :=
  sections.foldl (fun data c => biquadRun c data 0 0) x

/-- np.max(np.abs(l)); np.max of an empty array raises in numpy, modeled
as 0 (the claims only evaluate it on nonempty blocks). -/
noncomputable def maxAbs (l : List ℝ) : ℝ := l.foldr (fun x m => max |x| m) 0

/-- mono_to_stereo (signal_processing.py lines 81-86). -/
noncomputable def mono_to_stereo (l : List ℝ) : List (ℝ × ℝ) := l.map (fun x => (x, x))

/-- envelope = np.abs(samples). -/
noncomputable def am_envelope (samples : List ℂ) : List ℝ := samples.map Complex.abs

/-- envelope = envelope - np.mean(envelope). -/
noncomputable def am_centered (samples : List ℂ) : List ℝ :=
  (am_envelope samples).map (fun x => x - rmean (am_envelope samples))

/-- filtered_envelope = bandpass_filter(envelope, 300, 3000, 44100):
sosfilt with the butter(10, band)-designed sections. -/
noncomputable def am_filtered (sos : List Biquad) (samples : List ℂ) : List ℝ :=
  sosfilt sos (am_centered samples)

/-- demodulate_am: envelope detection, DC removal, bandpass, then
audio = filtered / np.max(np.abs(filtered)) * 0.95, mono to stereo. -/
noncomputable def demodulate_am (sos : List Biquad) (samples : List ℂ) : List (ℝ × ℝ) :=
  mono_to_stereo
    ((am_filtered sos samples).map (fun x => x / maxAbs (am_filtered sos samples) * 0.95))

theorem biquadRun_zeros (c : Biquad) : ∀ n : ℕ,
    biquadRun c (List.replicate n 0) 0 0 = List.replicate n 0 := by
  intro n
  induction n with
  | zero => rfl
  | succ n ih => simp [List.replicate_succ, biquadRun, ih]

theorem sosfilt_zeros (sections : List Biquad) (n : ℕ) :
    sosfilt sections (List.replicate n 0) = List.replicate n 0 := by
  unfold sosfilt
  induction sections with
  | nil => rfl
  | cons c cs ih => simpa [biquadRun_zeros] using ih

theorem maxAbs_zeros (n : ℕ) : maxAbs (List.replicate n 0) = 0 := by
  induction n with
  | zero => rfl
  | succ n ih => simp [List.replicate_succ, maxAbs] at ih ⊢; simp [ih]

/-- Claim C4: the normalization guard the claim asserts does not exist.  On
an all-zero block, whatever the bandpass sections are, the filtered signal
is identically zero, so demodulate_am's normalization divisor
np.max(np.abs(filtered)) is exactly 0 and the code divides 0/0 per sample
(numpy: NaN audio, violating the claim's no-NaN requirement; the spec's
numeric guard demands clamping instead). -/
theorem c4_am_zero_divisor (sos : List Biquad) :
    am_filtered sos (List.replicate 4 0) = List.replicate 4 0 ∧
    maxAbs (am_filtered sos (List.replicate 4 0)) = 0 := by
  have h1 : am_envelope (List.replicate 4 0) = List.replicate 4 0 := by
    simp [am_envelope, List.map_replicate]
  have h2 : am_centered (List.replicate 4 0) = List.replicate 4 0 := by
    unfold am_centered
    rw [h1]
    simp [rmean, List.map_replicate]
  have h3 : am_filtered sos (List.replicate 4 0) = List.replicate 4 0 := by
    unfold am_filtered
    rw [h2, sosfilt_zeros]
  exact ⟨h3, by rw [h3]; exact maxAbs_zeros 4⟩

/-! ### Demodulator dispatch (demodulate_signal) -/

/-- Python's demodulate_signal returns stereo (n,2) arrays from every mode
except RAW, which returns the 1-D real part. -/
inductive DemodResult where
  | stereo : List (ℝ × ℝ) → DemodResult
  | mono : List ℝ → DemodResult

/-- demodulate_signal (lines 218-234).  The NFM/WFM/SSB demodulators chain
scipy-designed FIR taps and IIR decimators whose coefficients are opaque,
so those three are parameters (the SSB Bool mirrors lower=False/True for
USB/LSB); AM is the embedded demodulate_am with its filter sections as a
parameter.  Every mode first applies iq_correction; the final line returns
np.zeros((len(samples), 2)) when no mode matches. -/
noncomputable def demodulate_signal
    (dnfm dwfm : List ℂ → ℕ → List (ℝ × ℝ))
    (dssb : List ℂ → ℕ → Bool → List (ℝ × ℝ))
    (am_sos : List Biquad)
    (samples : List ℂ) (sample_rate : ℕ) (mode : String) : DemodResult :=
  let s := iq_correction samples
  if mode = "NFM" then DemodResult.stereo (dnfm s sample_rate)
  else if mode = "WFM" then DemodResult.stereo (dwfm s sample_rate)
  else if mode = "AM" then DemodResult.stereo (demodulate_am am_sos s)
  else if mode = "USB" then DemodResult.stereo (dssb s sample_rate false)
  else if mode = "LSB" then DemodResult.stereo (dssb s sample_rate true)
  else if mode = "RAW" then DemodResult.mono (s.map Complex.re)
  else DemodResult.stereo (List.replicate s.length (0, 0))

theorem length_iq_correction (samples : List ℂ) :
    (iq_correction samples).length = samples.length := by
  simp [iq_correction, corrected_samples, i_samples, q_samples, normalized_samples]

/-- Claim C7 (amended): for every mode outside {NFM, WFM, AM, USB, LSB, RAW}
and regardless of the demodulator internals, demodulate_signal silently
returns the zero-filled (len(samples), 2) silence block; there is no
validation error. -/
theorem c7_unknown_mode_silence
    (dnfm dwfm : List ℂ → ℕ → List (ℝ × ℝ))
    (dssb : List ℂ → ℕ → Bool → List (ℝ × ℝ))
    (am_sos : List Biquad)
    (samples : List ℂ) (sample_rate : ℕ) (mode : String)
    (h : mode ∉ (["NFM", "WFM", "AM", "USB", "LSB", "RAW"] : List String)) :
    demodulate_signal dnfm dwfm dssb am_sos samples sample_rate mode =
      DemodResult.stereo (List.replicate samples.length ((0 : ℝ), (0 : ℝ))) := by
  simp only [List.mem_cons, List.not_mem_nil, or_false, not_or] at h
  obtain ⟨h1, h2, h3, h4, h5, h6⟩ := h
  unfold demodulate_signal
  rw [if_neg h1, if_neg h2, if_neg h3, if_neg h4, if_neg h5, if_neg h6,
    length_iq_correction]

/-- Stand-ins for the parameterized demodulators, used only to instantiate
the dispatch at a concrete input. -/
def stubStereoDemod : List ℂ → ℕ → List (ℝ × ℝ) := fun _ _ => []

def stubSsbDemod : List ℂ → ℕ → Bool → List (ℝ × ℝ) := fun _ _ _ => []

/-- Claim C7 counterexample: mode FSK is outside the enumeration, and
demodulate_signal returns the defaulted silence block rather than rejecting
the call (its return type has no error channel at all: every path returns
an audio block). -/
theorem c7_counterexample :
    demodulate_signal stubStereoDemod stubStereoDemod stubSsbDemod [] [(1 : ℂ)] 48000 "FSK" =
      DemodResult.stereo [((0 : ℝ), (0 : ℝ))] := by
  unfold demodulate_signal
  rw [if_neg (by decide), if_neg (by decide), if_neg (by decide), if_neg (by decide),
    if_neg (by decide), if_neg (by decide), length_iq_correction]
  rfl

/-- Claim C7 witness for the amended theorem at mode XYZ. -/
theorem c7_witness :
    ("XYZ" ∉ (["NFM", "WFM", "AM", "USB", "LSB", "RAW"] : List String)) ∧
    demodulate_signal stubStereoDemod stubStereoDemod stubSsbDemod [] [(1 : ℂ), 2] 48000 "XYZ" =
      DemodResult.stereo (List.replicate ([(1 : ℂ), 2].length) ((0 : ℝ), (0 : ℝ))) :=
  ⟨by decide,
    c7_unknown_mode_silence stubStereoDemod stubStereoDemod stubSsbDemod [] [(1 : ℂ), 2]
      48000 "XYZ" (by decide)⟩

/-! ### Spectrum engine (src/signal_processing.py, compute_fft, lines 237-256) -/

/-- np.hamming: [] for M = 0, [1] for M = 1, else
0.54 - 0.46 cos(2 pi n / (M - 1)) for n = 0..M-1. -/
noncomputable def hammingWindow (n : ℕ) : List ℝ :=
  if n = 1 then [1]
  else (List.range n).map
    (fun i : ℕ => 0.54 - 0.46 * Real.cos (2 * Real.pi * (i : ℝ) / ((n : ℝ) - 1)))

/-- np.fft.fft: X[k] = sum_m x[m] exp(-2 pi i k m / N). -/
noncomputable def dft (x : List ℂ) : List ℂ :=
  (List.range x.length).map (fun k : ℕ =>
    ((List.range x.length).map (fun m : ℕ =>
      x.getD m 0 * Complex.exp (-2 * Real.pi * Complex.I * (k : ℂ) * (m : ℂ) /
        (x.length : ℂ)))).sum)

/-- np.fft.fftshift: roll by n/2, i.e. the last ceil(n/2) elements move to
the front. -/
noncomputable def fftshift (l : List ℂ) : List ℂ :=
  l.drop (l.length - l.length / 2) ++ l.take (l.length - l.length / 2)

/-- compute_fft: Hamming window, FFT, fftshift,
power_db = 20*log10(|X| + 1e-10), then
np.clip(power_db + system_gain + ref_level, -100, -20) with
system_gain = -30 and ref_level = -70. -/
noncomputable def compute_fft (samples : List ℂ) : List ℝ :=
  ((fftshift (dft (List.zipWith (fun (s : ℂ) (w : ℝ) => s * ((w : ℝ) : ℂ)) samples
      (hammingWindow samples.length)))).map
    (fun z => 20 * Real.logb 10 (Complex.abs z + 1e-10))).map
    (fun p => max (-100) (min (p + (-30) + (-70)) (-20)))

theorem length_hammingWindow (n : ℕ) : (hammingWindow n).length = n := by
  unfold hammingWindow
  split_ifs with h
  · rw [h]; rfl
  · rw [List.length_map, List.length_range]

theorem length_dft (x : List ℂ) : (dft x).length = x.length := by
  unfold dft
  rw [List.length_map, List.length_range]

theorem length_fftshift (l : List ℂ) : (fftshift l).length = l.length := by
  unfold fftshift
  rw [List.length_append, List.length_drop, List.length_take]
  omega

/-- Claim C8: for every non-empty sample block, compute_fft returns one
value per input sample and every value lies in the clipped dynamic range
[-100, -20] dB. -/
theorem c8_fft_length_and_range (samples : List ℂ) (h : samples ≠ []) :
    (compute_fft samples).length = samples.length ∧
    ∀ x ∈ compute_fft samples, -100 ≤ x ∧ x ≤ -20 := by
  constructor
  · unfold compute_fft
    rw [List.length_map, List.length_map, length_fftshift, length_dft, List.length_zipWith,
      length_hammingWindow, min_self]
  · intro x hx
    rcases List.mem_map.mp hx with ⟨p, -, rfl⟩
    constructor
    · exact le_max_left _ _
    · exact max_le (by norm_num) (min_le_right _ _)

/-- Claim C8 witness at the one-sample block [1]. -/
theorem c8_witness :
    ([(1 : ℂ)] ≠ []) ∧ (compute_fft [(1 : ℂ)]).length = [(1 : ℂ)].length ∧
    ∀ x ∈ compute_fft [(1 : ℂ)], -100 ≤ x ∧ x ≤ -20 :=
  ⟨by simp, (c8_fft_length_and_range [(1 : ℂ)] (by simp)).1,
    (c8_fft_length_and_range [(1 : ℂ)] (by simp)).2⟩

/-! ### Morse decoder front end (src/decoders.py, decode_morse, lines 136-179)

The claim concerns the insufficient-transitions early return, which happens
before the k-means timing estimation.  scipy.cluster.vq.kmeans uses
randomized initialization and is not a deterministic function of its input,
so everything after the early return is a continuation parameter that
receives the rise/fall edge indices and the sample rate; the embedded part
(envelope, normalization, dB, thresholding, diff, edge extraction, early
return) never invokes it on the claimed inputs. -/

/-- envelope = np.abs(samples). -/
noncomputable def morse_envelope (samples : List ℂ) : List ℝ := samples.map Complex.abs

/-- np.max over the (nonnegative) envelope; np.max of an empty array raises
in numpy, modeled as 0. -/
noncomputable def listMax (l : List ℝ) : ℝ := l.foldr max 0

/-- envelope = envelope / np.max(envelope). -/
noncomputable def morse_env_norm (samples : List ℂ) : List ℝ :=
  (morse_envelope samples).map (fun x => x / listMax (morse_envelope samples))

/-- envelope_db = 20 * np.log10(envelope + 1e-10). -/
noncomputable def morse_env_db (samples : List ℂ) : List ℝ :=
  (morse_env_norm samples).map (fun x => 20 * Real.logb 10 (x + 1e-10))

open Classical in
/-- signals = (envelope_db > threshold).astype(int). -/
noncomputable def morse_signals (samples : List ℂ) (threshold : ℝ) : List ℤ :=
  (morse_env_db samples).map (fun x => if x > threshold then 1 else 0)

/-- transitions = np.diff(signals): a[i+1] - a[i]. -/
noncomputable def morse_transitions (samples : List ℂ) (threshold : ℝ) : List ℤ :=
  List.zipWith (fun a b => a - b) (morse_signals samples threshold).tail
    (morse_signals samples threshold)

/-- rise_times = np.where(transitions == 1)[0]. -/
noncomputable def rise_times (samples : List ℂ) (threshold : ℝ) : List ℕ :=
  (List.range (morse_transitions samples threshold).length).filter
    (fun i => (morse_transitions samples threshold).getD i 0 = 1)

/-- fall_times = np.where(transitions == -1)[0]. -/
noncomputable def fall_times (samples : List ℂ) (threshold : ℝ) : List ℕ :=
  (List.range (morse_transitions samples threshold).length).filter
    (fun i => (morse_transitions samples threshold).getD i 0 = -1)

/-- decode_morse up to the insufficient-transitions early return
(decoders.py lines 165-166); the rest of the function (pulse pairing,
k-means, symbol assembly, timing dict) is the continuation rest. -/
noncomputable def decode_morse
    (rest : List ℕ → List ℕ → ℕ → String × (ℝ × ℝ × ℝ))
    (samples : List ℂ) (sample_rate : ℕ) (threshold : ℝ) : String × (ℝ × ℝ × ℝ) :=
  if rise_times samples threshold = [] ∨ fall_times samples threshold = [] then
    ("", (0, 0, 0))
  else
    rest (rise_times samples threshold) (fall_times samples threshold) sample_rate

/-- Claim C9: whenever the thresholded envelope has no rising edge or no
falling edge, decode_morse returns the empty string and the zero timing
record, whatever the clustering stage would do; the embedded front end is
total, so nothing raises. -/
theorem c9_morse_no_transitions
    (rest : List ℕ → List ℕ → ℕ → String × (ℝ × ℝ × ℝ))
    (samples : List ℂ) (sample_rate : ℕ) (threshold : ℝ)
    (h : rise_times samples threshold = [] ∨ fall_times samples threshold = []) :
    decode_morse rest samples sample_rate threshold = ("", (0, 0, 0)) := by
  unfold decode_morse
  rw [if_pos h]

/-- Claim C9 witness: a single-sample block has no transitions at all. -/
theorem c9_witness :
    rise_times [(1 : ℂ)] (-20) = [] ∧
    decode_morse (fun _ _ _ => ("X", (1, 1, 1))) [(1 : ℂ)] 48000 (-20) = ("", (0, 0, 0)) := by
  have h : rise_times [(1 : ℂ)] (-20) = [] := by
    simp [rise_times, morse_transitions, morse_signals, morse_env_db, morse_env_norm,
      morse_envelope]
  exact ⟨h, c9_morse_no_transitions _ _ _ _ (Or.inl h)⟩

/-! ### AFSK demodulation and APRS decoding
(src/decoders.py, decode_afsk lines 94-112, decode_aprs lines 115-133)

The two band-pass filters are scipy butter(10)-designed sosfilt calls; as
above their action on the samples is a parameter.  The windowed energy
comparison loop is embedded exactly: window = int(sample_rate / 1200) and
i ranges over range(0, len(samples) - window, window); the fuel equals
len(samples), which dominates the iteration count whenever window >= 1
(for sample_rate < 1200 the Python range has step 0 and raises, so the
claims assume sample_rate >= 1200). -/

/-- np.sum(filtered[i:i+window]**2). -/
noncomputable def sliceEnergy (filtered : List ℝ) (i window : ℕ) : ℝ :=
  (((filtered.drop i).take window).map (fun x => x ^ 2)).sum

open Classical in
noncomputable def afskLoopF (f1200 f2200 : List ℝ) (window n : ℕ) : ℕ → ℕ → List Nat
  | 0, _ => []
  | fuel + 1, i =>
    if i < n - window then
      (if sliceEnergy f2200 i window > sliceEnergy f1200 i window then 1 else 0) ::
        afskLoopF f1200 f2200 window n fuel (i + window)
    else []

/-- decode_afsk: band-pass at 1100-1300 and 2100-2300, then per one-bit
window compare energies, emitting 1 when the 2200 Hz band wins. -/
noncomputable def decode_afsk (bandpass : List ℝ → ℝ → ℝ → ℕ → List ℝ)
    (samples : List ℝ) (sample_rate : ℕ) : List Nat :=
  afskLoopF (bandpass samples 1100 1300 sample_rate) (bandpass samples 2100 2300 sample_rate)
    (sample_rate / 1200) samples.length samples.length 0

/-- decode_aprs: the input block is real audio (complex inputs are first
reduced to np.real, so the embedding takes the real block directly);
normalize by the peak, AFSK-demodulate to bits, decode one AX.25 frame, and
wrap: [packet] if packet else [] (None and the empty string are both
falsy). -/
noncomputable def decode_aprs (bandpass : List ℝ → ℝ → ℝ → ℕ → List ℝ)
    (samples : List ℝ) (sample_rate : ℕ) : List String :=
  match decode_ax25_frame
    (decode_afsk bandpass (samples.map (fun x => x / maxAbs samples)) sample_rate) with
  | none => []
  | some p => if p = "" then [] else [p]

/-- Claim C10: decode_aprs returns at most one packet: only the first AX.25
frame found in the bit stream is decoded, regardless of how many complete
frames the stream contains. -/
theorem c10_at_most_one_packet (bandpass : List ℝ → ℝ → ℝ → ℕ → List ℝ)
    (samples : List ℝ) (sample_rate : ℕ) (h : 1200 ≤ sample_rate) :
    (decode_aprs bandpass samples sample_rate).length ≤ 1 := by
  unfold decode_aprs
  rcases decode_ax25_frame
    (decode_afsk bandpass (samples.map (fun x => x / maxAbs samples)) sample_rate) with _ | p
  · simp
  · by_cases hp : p = "" <;> simp [hp]

/-- Claim C10 witness at a concrete audio block and sample rate. -/
theorem c10_witness :
    (1200 ≤ 48000) ∧
    (decode_aprs (fun l _ _ _ => l) [(1 : ℝ)] 48000).length ≤ 1 :=
  ⟨by norm_num, c10_at_most_one_packet (fun l _ _ _ => l) [(1 : ℝ)] 48000 (by norm_num)⟩

end PySpecSDR
